import Mathlib

/-!
Verification of the graph/topology core of the `brewery` repository
(`brewery/flow/graph.py`): node registry, connection set, and the
topological sorter (`Graph.sorted_nodes`, Kahn's algorithm).

Modelling conventions:
* Node handles are opaque; they are modelled as natural numbers.  The
  source compares nodes with `==`; here node equality is `Nat` equality.
* Node names are strings (auto-generated names are `"node" ++ N`).
* Outlet identifiers are opaque as well, modelled as `Option Nat`
  (Python `None` becomes `none`).
* The registry `self.nodes` is an `OrderedDict`; it is modelled as an
  insertion-ordered association list `List (String × Nat)`.
* The connection set `self.connections` is a Python `set` of 4-tuples;
  it is modelled as a `Finset Connection`.
* Python exceptions become `Except PyError`.
* Python `set.pop()` returns an arbitrary element.  The sorter is
  therefore parameterised by a choice function `c : Finset Nat → Nat`;
  `pick` uses `c`'s value when it lies in the set and otherwise falls
  back to the least element, so every pop behaviour of an unordered set
  is represented by some `c`.
-/

/-- A connection, `Connection = namedtuple("Connection", ["source",
"target", "source_outlet", "target_outlet"])` in the source. -/
structure Connection where
  source : Nat
  target : Nat
  sourceOutlet : Option Nat
  targetOutlet : Option Nat
deriving DecidableEq, Repr

/-- Python exceptions raised by the graph code.  `cycle` models the
`Exception("Steram has at least one cycle (%d connections left of %d)")`
raised by `sorted_nodes`; it carries both counts from the message. -/
inductive PyError where
  | keyError : PyError
  | valueError : PyError
  | typeError : PyError
  | runtimeError : PyError
  | streamError : PyError
  | cycle (residual : Nat) (total : Nat) : PyError
deriving DecidableEq, Repr

/-- The graph: registry (ordered name-to-node mapping), connection set,
and the auto-naming counter `self._name_sequence`. -/
structure Graph where
  nodes : List (String × Nat)
  connections : Finset Connection
  nameSeq : Nat
deriving DecidableEq

/-- `Graph()` with no nodes and no connections; `_name_sequence = 1`. -/
def Graph.empty : Graph := ⟨[], ∅, 1⟩

/-- `self.nodes.keys()`. -/
def Graph.keys (g : Graph) : List String := g.nodes.map Prod.fst

/-- `self.nodes.values()`. -/
def Graph.values (g : Graph) : List Nat := g.nodes.map Prod.snd

/-- `set(self.nodes.values())`. -/
def Graph.nodeValues (g : Graph) : Finset Nat := g.values.toFinset

/-- A node reference: either a name or a node handle (the source accepts
both in `node`, `remove`, `connect`, ...). -/
abbrev Ref := String ⊕ Nat

/-- Dictionary lookup `self.nodes[name]` on the association list. -/
def lookupName : List (String × Nat) → String → Option Nat
  | [], _ => none
  | (k, v) :: rest, name => if k = name then some v else lookupName rest name

/-- `Graph._generate_node_name`: advance `_name_sequence` past names that
are already keys; return the first free `"node<N>"` together with the
final counter value (the source increments the counter only on a
collision, so the returned counter is the index of the free name).  The
fuel argument only bounds the search; `keys.length + 1` candidates always
contain a free name, so callers pass that. -/
def genName (keys : List String) : Nat → Nat → String × Nat
  | seq, 0 => ("node" ++ toString seq, seq)
  | seq, fuel + 1 =>
    let name := "node" ++ toString seq
    if name ∈ keys then genName keys (seq + 1) fuel else (name, seq)

/-- `Graph.add(node, name=None)`.  `name or self._generate_node_name()`
generates a name when `name` is `None` (and also when it is the empty
string, which is falsy).  Fails with `KeyError` on a duplicate name and
`ValueError` on a duplicate node instance; on success the entry is
appended to the registry (dict insertion order) and the assigned name is
returned. -/
def Graph.add (g : Graph) (node : Nat) (name : Option String) :
    Except PyError (Graph × String) :=
  let gen : String × Nat :=
    match name with
    | some n => if n = "" then genName g.keys g.nameSeq (g.keys.length + 1) else (n, g.nameSeq)
    | none => genName g.keys g.nameSeq (g.keys.length + 1)
  let name' := gen.1
  if name' ∈ g.keys then .error .keyError
  else if node ∈ g.values then .error .valueError
  else .ok ({ g with nodes := g.nodes ++ [(name', node)], nameSeq := gen.2 }, name')

/-- `Graph.node_name(node)`: the names whose registry entry equals the
node; exactly one is required.  (Both failure branches raise
`StreamError`, a name the module never defines, so in Python they in
fact surface as `NameError`; either way they are errors.) -/
def Graph.nodeName (g : Graph) (node : Nat) : Except PyError String :=
  match (g.nodes.filter (fun p => p.2 = node)).map Prod.fst with
  | [n] => .ok n
  | _ => .error .streamError

/-- `Graph.rename_node(node, name)`.  An empty name raises `ValueError`
("No node name provided for rename").  For any non-empty name the next
line executes `if name in self.nodes():` — it *calls* the OrderedDict —
which raises `TypeError` unconditionally, so the rename logic below it
is unreachable. -/
def Graph.renameNode (_g : Graph) (_node : Nat) (name : String) :
    Except PyError Graph :=
  if name = "" then .error .valueError
  else .error .typeError

/-- `Graph.node(reference)`: coalesce a reference.  A name is looked up
as a key; a node handle is accepted when it occurs among the registry
values (the dict lookup of a non-string can only miss, since all keys
are names); otherwise `ValueError`. -/
def Graph.node (g : Graph) : Ref → Except PyError Nat
  | .inl name =>
    match lookupName g.nodes name with
    | some v => .ok v
    | none => .error .valueError
  | .inr n => if n ∈ g.values then .ok n else .error .valueError

/-- `Graph.remove(node)`: accept a name (dict lookup, `KeyError` when
absent) or a node handle (via `node_name`); delete the registry entry
and then every connection whose source or target equals the node (the
source iterates over a fresh list comprehension, so this loop has no
mutation-during-iteration hazard). -/
def Graph.removeNode (g : Graph) (r : Ref) : Except PyError Graph :=
  let entry : Except PyError (String × Nat) :=
    match r with
    | .inl name =>
      match lookupName g.nodes name with
      | some v => .ok (name, v)
      | none => .error .keyError
    | .inr node => (g.nodeName node).map (fun nm => (nm, node))
  match entry with
  | .error e => .error e
  | .ok (name, node) =>
    .ok { g with
      nodes := g.nodes.filter (fun p => p.1 ≠ name),
      connections := g.connections.filter
        (fun c => ¬(c.source = node ∨ c.target = node)) }

/-- `Graph.connect(source, target, source_outlet=None, target_outlet=None)`:
resolve both endpoints (source first), then `set.add` the 4-tuple. -/
def Graph.connect (g : Graph) (src tgt : Ref) (so to_ : Option Nat) :
    Except PyError Graph :=
  match g.node src, g.node tgt with
  | .ok s, .ok t =>
    .ok { g with connections := insert (Connection.mk s t so to_) g.connections }
  | .error e, _ => .error e
  | .ok _, .error e => .error e

/-- Whether the raw (unresolved) argument of the `all_` branch compares
equal to a node handle: `conn.source == source` compares the stored node
against whatever the caller passed; a name (string) never equals a node. -/
def refMatches : Ref → Nat → Bool
  | .inl _, _ => false
  | .inr m, n => m == n

/-- The `all_=True` branch of `remove_connection`: `for conn in
self.connections: if conn.source == source and conn.target == target:
self.connections.discard(conn)`.  A CPython set iterator records the
set's size at creation and every `next()` call — including the final one
that would raise `StopIteration` — raises
`RuntimeError("Set changed size during iteration")` once the size
differs.  `order` is the iteration order of the set (an enumeration of
its elements); `n0` is the recorded size. -/
def discardAll (src tgt : Ref) : List Connection → Finset Connection → Nat →
    Except PyError (Finset Connection)
  | [], s, n0 => if s.card = n0 then .ok s else .error .runtimeError
  | e :: rest, s, n0 =>
    if s.card ≠ n0 then .error .runtimeError
    else
      let s' := if refMatches src e.source ∧ refMatches tgt e.target then s.erase e else s
      discardAll src tgt rest s' n0

/-- `Graph.remove_connection(source, target, source_outlet=None,
target_outlet=None, all_=False)`.  With `all_` the source compares the
*raw* arguments against connection endpoints while discarding from the
set being iterated (see `discardAll`); `order` is the set's iteration
order.  Without `all_` it resolves both endpoints and `discard`s the
single 4-tuple. -/
def Graph.removeConnection (g : Graph) (order : List Connection)
    (src tgt : Ref) (so to_ : Option Nat) (all_ : Bool) :
    Except PyError Graph :=
  if all_ then
    match discardAll src tgt order g.connections g.connections.card with
    | .ok conns => .ok { g with connections := conns }
    | .error e => .error e
  else
    match g.node src, g.node tgt with
    | .ok s, .ok t =>
      .ok { g with connections := g.connections.erase (Connection.mk s t so to_) }
    | .error e, _ => .error e
    | .ok _, .error e => .error e

/-- `is_source(node, connections)`: no connection in the working set
targets the node. -/
def isSource (n : Nat) (conns : Finset Connection) : Prop :=
  ∀ e ∈ conns, e.target ≠ n

instance (n : Nat) (conns : Finset Connection) : Decidable (isSource n conns) :=
  Finset.decidableDforallFinset

/-- `source_connections(node, connections)`: the working connections
whose source is the node. -/
def outgoing (n : Nat) (conns : Finset Connection) : Finset Connection :=
  conns.filter (fun e => e.source = n)

/-- `set.pop()` on the frontier, parameterised by the choice function
`c`: the popped element is `c`'s value when that lies in the set, and
the least element otherwise, so `pick` always returns a member and every
possible pop behaviour is realised by some `c`. -/
def pick (c : Finset Nat → Nat) (s : Finset Nat) (h : s.Nonempty) : Nat :=
  if c s ∈ s then c s else s.min' h

/-- One `while source_nodes:` loop of `sorted_nodes`, with explicit fuel
(the loop needs at most `frontier.card + conns.card` iterations, see
`kahnLoop_spec`).  Popping `n`, the inner `for connection in
s_connections` loop removes every connection sourced at `n` and adds a
target `m` to the frontier when `m` has no remaining incoming
connection.  The per-edge `is_source` checks of the source are
order-independent: a target `m` passes its check exactly when the last
working connection into `m` that is sourced at `n` is removed, i.e. when
`m` has no incoming connection outside the removed batch, so the batch
formulation below is faithful for any iteration order of
`s_connections`. -/
def kahnLoop (c : Finset Nat → Nat) :
    Nat → Finset Nat → Finset Connection → List Nat → List Nat × Finset Connection
  | 0, _, conns, acc => (acc, conns)
  | fuel + 1, frontier, conns, acc =>
    if h : frontier.Nonempty then
      let n := pick c frontier h
      let out := outgoing n conns
      let conns' := conns \ out
      let newly := (out.image Connection.target).filter (fun m => isSource m conns')
      kahnLoop c fuel (frontier.erase n ∪ newly) conns' (acc ++ [n])
    else (acc, conns)

/-- The node set the sort runs over: `if not nodes: nodes =
set(self.nodes.values())` — both an omitted and an *empty* argument
(falsy) select all registered nodes. -/
def Graph.sortTargets (g : Graph) (subset : Option (Finset Nat)) : Finset Nat :=
  match subset with
  | none => g.nodeValues
  | some s => if s = ∅ then g.nodeValues else s

/-- The initial frontier `set([n for n in nodes if is_source(n,
connections)])`: source status is computed against the *full* connection
set. -/
def Graph.initialSources (g : Graph) (subset : Option (Finset Nat)) : Finset Nat :=
  (g.sortTargets subset).filter (fun n => isSource n g.connections)

/-- The final `(L, connections)` state of the sort's loop. -/
def Graph.kahnResult (c : Finset Nat → Nat) (g : Graph)
    (subset : Option (Finset Nat)) : List Nat × Finset Connection :=
  let start := g.initialSources subset
  kahnLoop c (start.card + g.connections.card) start g.connections []

/-- `Graph.sorted_nodes(nodes=None)`: run Kahn's algorithm on a working
copy of the connection set; if connections remain, raise the cycle
exception carrying the residual and total connection counts, else
return the order.  The graph itself is read, never written. -/
def Graph.sortedNodes (c : Finset Nat → Nat) (g : Graph)
    (subset : Option (Finset Nat)) : Except PyError (List Nat) :=
  let res := g.kahnResult c subset
  if res.2 = ∅ then .ok res.1
  else .error (.cycle res.2.card g.connections.card)

/-- One-step edge relation of a working connection set. -/
def edgeRel (conns : Finset Connection) (a b : Nat) : Prop :=
  ∃ e ∈ conns, e.source = a ∧ e.target = b

/-- A connection set has a cycle when some node has a nonempty walk back
to itself. -/
def HasCycle (conns : Finset Connection) : Prop :=
  ∃ x : Nat, ∃ p : List Nat, List.Chain (edgeRel conns) x (p ++ [x])

/-- Graph states reachable through the API: registry names are unique,
registry node instances are unique, and connection endpoints are
registered. -/
def Graph.WellFormed (g : Graph) : Prop :=
  g.keys.Nodup ∧ g.values.Nodup ∧
    ∀ e ∈ g.connections, e.source ∈ g.values ∧ e.target ∈ g.values

instance (g : Graph) : Decidable g.WellFormed := by
  unfold Graph.WellFormed; infer_instance

instance {ε α : Type} [DecidableEq ε] [DecidableEq α] : DecidableEq (Except ε α) :=
  fun a b =>
    match a, b with
    | .ok x, .ok y =>
      if h : x = y then .isTrue (by rw [h]) else .isFalse (by intro hc; cases hc; exact h rfl)
    | .error x, .error y =>
      if h : x = y then .isTrue (by rw [h]) else .isFalse (by intro hc; cases hc; exact h rfl)
    | .ok _, .error _ => .isFalse nofun
    | .error _, .ok _ => .isFalse nofun

/-- Concrete example graphs used to instantiate the theorems below. -/
def gChainABC : Graph :=
  ⟨[("A", 0), ("B", 1), ("C", 2)],
    {Connection.mk 0 1 none none, Connection.mk 1 2 none none}, 1⟩

def gPair : Graph := ⟨[("A", 0), ("B", 1)], ∅, 1⟩

def gEdge : Graph := ⟨[("A", 0), ("B", 1)], {Connection.mk 0 1 none none}, 1⟩

def gCycleAB : Graph :=
  ⟨[("A", 0), ("B", 1)],
    {Connection.mk 0 1 none none, Connection.mk 1 0 none none}, 1⟩

def gDiamond : Graph :=
  ⟨[("A", 0), ("B", 1), ("C", 2), ("D", 3)],
    {Connection.mk 0 1 none none, Connection.mk 0 2 none none,
      Connection.mk 1 3 none none, Connection.mk 2 3 none none}, 1⟩

/-- The popped element is always a member of the frontier. -/
theorem pick_mem (c : Finset Nat → Nat) (s : Finset Nat) (h : s.Nonempty) :
    pick c s h ∈ s := by
  unfold pick
  split
  · assumption
  · exact s.min'_mem h

/-- Popping from a singleton frontier yields its element, whatever the
choice function does. -/
theorem pick_singleton (c : Finset Nat → Nat) (a : Nat) (h : ({a} : Finset Nat).Nonempty) :
    pick c {a} h = a := by
  have := pick_mem c {a} h
  simpa using this

/-- C4 (code bug): `rename_node` with a non-empty new name always raises
`TypeError`, because `if name in self.nodes():` calls the OrderedDict;
with an empty name it raises `ValueError`.  The documented rename
behaviour is unreachable. -/
theorem renameNode_always_fails :
    (Graph.mk [("A", 0)] ∅ 1).renameNode 0 "B" = .error .typeError ∧
    (Graph.mk [("A", 0)] ∅ 1).renameNode 0 "" = .error .valueError := by
  exact ⟨rfl, rfl⟩

/-- C5 (code bug): with two connections A→B differing only in outlet,
`remove_connection(A, B, all_=True)` discards a matching connection from
the set it is iterating, so the very next step of the iteration raises
`RuntimeError("Set changed size during iteration")` — under either
iteration order of the two-element set — instead of removing both
connections. -/
theorem removeConnection_all_runtime_error :
    (Graph.mk [("A", 0), ("B", 1)]
        {Connection.mk 0 1 (some 1) none, Connection.mk 0 1 (some 2) none} 1).removeConnection
        [Connection.mk 0 1 (some 1) none, Connection.mk 0 1 (some 2) none]
        (.inr 0) (.inr 1) none none true = .error .runtimeError ∧
    (Graph.mk [("A", 0), ("B", 1)]
        {Connection.mk 0 1 (some 1) none, Connection.mk 0 1 (some 2) none} 1).removeConnection
        [Connection.mk 0 1 (some 2) none, Connection.mk 0 1 (some 1) none]
        (.inr 0) (.inr 1) none none true = .error .runtimeError := by
  exact ⟨by decide, by decide⟩

/-- C8: from an empty graph, three unnamed `add` calls assign `node1`,
`node2`, `node3`; after removing `node2`, the next unnamed `add` assigns
`node4` (the counter stands at 3, skips the taken `node3`, and never
revisits the freed `node2`). -/
theorem autoNaming_skips_freed_name :
    ∃ g1 g2 g3 g4 g5 : Graph,
      Graph.empty.add 10 none = .ok (g1, "node1") ∧
      g1.add 11 none = .ok (g2, "node2") ∧
      g2.add 12 none = .ok (g3, "node3") ∧
      g3.removeNode (.inl "node2") = .ok g4 ∧
      g4.add 13 none = .ok (g5, "node4") ∧
      "node4" ≠ "node2" := by
  refine ⟨⟨[("node1", 10)], ∅, 1⟩,
    ⟨[("node1", 10), ("node2", 11)], ∅, 2⟩,
    ⟨[("node1", 10), ("node2", 11), ("node3", 12)], ∅, 3⟩,
    ⟨[("node1", 10), ("node3", 12)], ∅, 3⟩,
    ⟨[("node1", 10), ("node3", 12), ("node4", 13)], ∅, 4⟩, ?_⟩
  refine ⟨by decide, by decide, by decide, ?_, by decide, by decide⟩
  decide

/-- C10: an explicitly empty subset argument is falsy in
`if not nodes:`, so the sort runs over all registered nodes exactly as
when the argument is omitted. -/
theorem sortedNodes_empty_subset_eq_none (c : Finset Nat → Nat) (g : Graph) :
    g.sortedNodes c (some ∅) = g.sortedNodes c none := by
  simp [Graph.sortedNodes, Graph.kahnResult, Graph.initialSources, Graph.sortTargets]


/-- Key lookup on a registry with unique keys finds the entry's value. -/
theorem lookupName_eq_of_nodup (l : List (String × Nat)) (hk : (l.map Prod.fst).Nodup)
    (name : String) (n : Nat) (hmem : (name, n) ∈ l) :
    lookupName l name = some n := by
  induction l with
  | nil => cases hmem
  | cons head rest ih =>
    obtain ⟨k, v⟩ := head
    rw [List.map_cons, List.nodup_cons] at hk
    rcases List.mem_cons.mp hmem with heq | hrest
    · obtain ⟨h1, h2⟩ := Prod.mk.inj heq
      subst h1
      subst h2
      simp [lookupName]
    · have hkm : name ∈ rest.map Prod.fst := List.mem_map.mpr ⟨(name, n), hrest, rfl⟩
      have hne : k ≠ name := by
        intro h
        rw [h] at hk
        exact hk.1 hkm
      simp only [lookupName, if_neg hne]
      exact ih hk.2 hrest

/-- With unique registry values, filtering by a registered value yields
exactly that entry. -/
theorem filter_value_singleton (l : List (String × Nat)) (hv : (l.map Prod.snd).Nodup)
    (name : String) (n : Nat) (hmem : (name, n) ∈ l) :
    l.filter (fun p => p.2 = n) = [(name, n)] := by
  induction l with
  | nil => cases hmem
  | cons head rest ih =>
    obtain ⟨k, v⟩ := head
    rw [List.map_cons, List.nodup_cons] at hv
    rcases List.mem_cons.mp hmem with heq | hrest
    · obtain ⟨h1, h2⟩ := Prod.mk.inj heq
      subst h1
      subst h2
      have hrest0 : rest.filter (fun p => p.2 = n) = [] := by
        refine List.filter_eq_nil_iff.mpr ?_
        intro p hp
        simp only [decide_eq_true_eq]
        intro hpn
        rw [← hpn] at hv
        exact hv.1 (List.mem_map.mpr ⟨p, hp, rfl⟩)
      simp [List.filter_cons, hrest0]
    · have hvm : n ∈ rest.map Prod.snd := List.mem_map.mpr ⟨(name, n), hrest, rfl⟩
      have hvn : ¬(v = n) := by
        intro h
        rw [h] at hv
        exact hv.1 hvm
      simp [List.filter_cons, hvn, ih hv.2 hrest]

/-- C7: removing a registered node — referenced by name or by handle —
deletes exactly its registry entry and exactly the connections touching
it (as source or target, any outlets); everything else, including the
naming counter, is preserved, and both reference forms produce the same
graph. -/
theorem removeNode_spec (g : Graph) (name : String) (n : Nat)
    (hwf : g.WellFormed) (hmem : (name, n) ∈ g.nodes) :
    ∃ g' : Graph,
      g.removeNode (.inl name) = .ok g' ∧
      g.removeNode (.inr n) = .ok g' ∧
      (∀ p : String × Nat, p ∈ g'.nodes ↔ p ∈ g.nodes ∧ p ≠ (name, n)) ∧
      (∀ e : Connection, e ∈ g'.connections ↔
        e ∈ g.connections ∧ e.source ≠ n ∧ e.target ≠ n) ∧
      g'.nameSeq = g.nameSeq := by
  obtain ⟨hk, hv, -⟩ := hwf
  have hlook : lookupName g.nodes name = some n :=
    lookupName_eq_of_nodup g.nodes hk name n hmem
  have hfilv : g.nodes.filter (fun p => p.2 = n) = [(name, n)] :=
    filter_value_singleton g.nodes hv name n hmem
  have hnodeName : g.nodeName n = .ok name := by
    simp [Graph.nodeName, hfilv]
  refine ⟨{ g with
      nodes := g.nodes.filter (fun p => p.1 ≠ name),
      connections := g.connections.filter
        (fun c => ¬(c.source = n ∨ c.target = n)) }, ?_, ?_, ?_, ?_, rfl⟩
  · simp [Graph.removeNode, hlook]
  · simp [Graph.removeNode, hnodeName, Except.map]
  · intro p
    have hiff : p ∈ g.nodes.filter (fun p => p.1 ≠ name) ↔ p ∈ g.nodes ∧ p.1 ≠ name := by
      simp [List.mem_filter]
    rw [show ({ g with
        nodes := g.nodes.filter (fun p => p.1 ≠ name),
        connections := g.connections.filter
          (fun c => ¬(c.source = n ∨ c.target = n)) } : Graph).nodes =
      g.nodes.filter (fun p => p.1 ≠ name) from rfl, hiff]
    constructor
    · rintro ⟨hp, hpname⟩
      refine ⟨hp, ?_⟩
      intro h
      rw [h] at hpname
      exact hpname rfl
    · rintro ⟨hp, hpne⟩
      refine ⟨hp, ?_⟩
      intro hpname
      exact hpne (List.inj_on_of_nodup_map hk hp hmem hpname)
  · intro e
    simp only [Finset.mem_filter]
    constructor
    · rintro ⟨he, hne⟩
      push_neg at hne
      exact ⟨he, hne.1, hne.2⟩
    · rintro ⟨he, h1, h2⟩
      refine ⟨he, ?_⟩
      push_neg
      exact ⟨h1, h2⟩

/-- C7 witness: in the graph A→B→C, `remove(B)` (by name and equally by
handle) deletes both connections; A and C remain registered with no
connection between them. -/
theorem removeNode_spec_witness :
    gChainABC.WellFormed ∧ ("B", 1) ∈ gChainABC.nodes ∧
    (∃ g' : Graph,
      gChainABC.removeNode (.inl "B") = .ok g' ∧
      gChainABC.removeNode (.inr 1) = .ok g' ∧
      (∀ p : String × Nat, p ∈ g'.nodes ↔ p ∈ gChainABC.nodes ∧ p ≠ ("B", 1)) ∧
      (∀ e : Connection, e ∈ g'.connections ↔
        e ∈ gChainABC.connections ∧ e.source ≠ 1 ∧ e.target ≠ 1) ∧
      g'.nameSeq = gChainABC.nameSeq) ∧
    gChainABC.removeNode (.inl "B") = .ok (Graph.mk [("A", 0), ("C", 2)] ∅ 1) :=
  ⟨by decide, by decide,
    removeNode_spec gChainABC "B" 1 (by decide) (by decide), by decide⟩

/-- C9: with both endpoints registered, `connect` twice with identical
arguments leaves the graph exactly as after the first call (the 4-tuple
set makes the second insert a silent no-op), and a second `connect`
differing only in outlets yields a second, distinct connection that
coexists with the first. -/
theorem connect_idempotent_and_outlet_distinct (g : Graph) (A B : Nat)
    (hA : A ∈ g.values) (hB : B ∈ g.values) (so to_ so2 to2 : Option Nat) :
    ∃ g1 : Graph,
      g.connect (.inr A) (.inr B) so to_ = .ok g1 ∧
      g1.connect (.inr A) (.inr B) so to_ = .ok g1 ∧
      g1.nodes = g.nodes ∧
      g1.connections = insert (Connection.mk A B so to_) g.connections ∧
      ((so, to_) ≠ (so2, to2) →
        ∃ g2 : Graph,
          g1.connect (.inr A) (.inr B) so2 to2 = .ok g2 ∧
          Connection.mk A B so to_ ∈ g2.connections ∧
          Connection.mk A B so2 to2 ∈ g2.connections ∧
          Connection.mk A B so to_ ≠ Connection.mk A B so2 to2) := by
  have hA1 : A ∈ List.map Prod.snd g.nodes := hA
  have hB1 : B ∈ List.map Prod.snd g.nodes := hB
  refine ⟨{ g with connections := insert (Connection.mk A B so to_) g.connections },
    ?_, ?_, rfl, rfl, ?_⟩
  · simp [Graph.connect, Graph.node, hA, hB]
  · simp [Graph.connect, Graph.node, Graph.values, hA1, hB1, Finset.insert_idem]
  · intro hne
    have hcne : Connection.mk A B so to_ ≠ Connection.mk A B so2 to2 := by
      intro h
      injection h with h1 h2 h3 h4
      exact hne (by rw [h3, h4])
    refine ⟨{ g with connections := insert (Connection.mk A B so2 to2) (insert (Connection.mk A B so to_) g.connections) }, ?_, ?_, ?_, hcne⟩
    · simp [Graph.connect, Graph.node, Graph.values, hA1, hB1]
    · simp
    · simp

/-- C9 witness: in a two-node graph, `connect(A,B,outlet1)` twice yields
one connection, and a further `connect(A,B,outlet2)` coexists with it as
a distinct connection. -/
theorem connect_idempotent_witness :
    (0 ∈ gPair.values) ∧ (1 ∈ gPair.values) ∧
    ((some 1, (none : Option Nat)) ≠ (some 2, (none : Option Nat))) ∧
    (∃ g1 : Graph,
      gPair.connect (.inr 0) (.inr 1) (some 1) none = .ok g1 ∧
      g1.connect (.inr 0) (.inr 1) (some 1) none = .ok g1 ∧
      g1.nodes = gPair.nodes ∧
      g1.connections = insert (Connection.mk 0 1 (some 1) none) gPair.connections ∧
      (((some 1, (none : Option Nat)) ≠ (some 2, (none : Option Nat))) →
        ∃ g2 : Graph,
          g1.connect (.inr 0) (.inr 1) (some 2) none = .ok g2 ∧
          Connection.mk 0 1 (some 1) none ∈ g2.connections ∧
          Connection.mk 0 1 (some 2) none ∈ g2.connections ∧
          Connection.mk 0 1 (some 1) none ≠ Connection.mk 0 1 (some 2) none)) :=
  ⟨by decide, by decide, by decide,
    connect_idempotent_and_outlet_distinct gPair 0 1 (by decide) (by decide)
      (some 1) none (some 2) none⟩

/-- Source status is preserved when the working connection set shrinks. -/
theorem isSource_anti {c1 c2 : Finset Connection} (h : c2 ⊆ c1) {m : Nat}
    (hs : isSource m c1) : isSource m c2 :=
  fun e he => hs e (h he)

theorem kahnLoop_zero (c : Finset Nat → Nat) (frontier : Finset Nat)
    (conns : Finset Connection) (acc : List Nat) :
    kahnLoop c 0 frontier conns acc = (acc, conns) := rfl

theorem kahnLoop_stop (c : Finset Nat → Nat) (fuel : Nat) (frontier : Finset Nat)
    (conns : Finset Connection) (acc : List Nat) (h : ¬frontier.Nonempty) :
    kahnLoop c (fuel + 1) frontier conns acc = (acc, conns) := by
  simp only [kahnLoop]
  rw [dif_neg h]

theorem kahnLoop_step (c : Finset Nat → Nat) (fuel : Nat) (frontier : Finset Nat)
    (conns : Finset Connection) (acc : List Nat) (h : frontier.Nonempty) :
    kahnLoop c (fuel + 1) frontier conns acc =
      kahnLoop c fuel
        (frontier.erase (pick c frontier h) ∪
          ((outgoing (pick c frontier h) conns).image Connection.target).filter
            (fun m => isSource m (conns \ outgoing (pick c frontier h) conns)))
        (conns \ outgoing (pick c frontier h) conns)
        (acc ++ [pick c frontier h]) := by
  simp only [kahnLoop]
  rw [dif_pos h]

/-- Master invariant of the sort loop.  Under the invariants that hold
when `sorted_nodes` enters the loop — the fuel bounds the measure, every
frontier node and every already-emitted node has no incoming working
connection, the frontier is disjoint from the output, and the output has
no duplicates — the final `(L, rest)` satisfies: L extends the
accumulator; L has no duplicates; every frontier node is emitted; the
residue is a subset of the working set; every consumed connection has
its source emitted strictly before any occurrence of its target; every
emitted node is an accumulator node, a frontier node or a connection
target; and on success every working connection has both endpoints
emitted. -/
theorem kahnLoop_spec (c : Finset Nat → Nat) :
    ∀ (fuel : Nat) (frontier : Finset Nat) (conns : Finset Connection) (acc : List Nat),
      frontier.card + conns.card ≤ fuel →
      (∀ m ∈ frontier, isSource m conns) →
      (∀ m ∈ acc, isSource m conns) →
      (∀ m ∈ frontier, m ∉ acc) →
      acc.Nodup →
      (∃ t, (kahnLoop c fuel frontier conns acc).1 = acc ++ t) ∧
      (kahnLoop c fuel frontier conns acc).1.Nodup ∧
      (∀ m ∈ frontier, m ∈ (kahnLoop c fuel frontier conns acc).1) ∧
      (kahnLoop c fuel frontier conns acc).2 ⊆ conns ∧
      (∀ e ∈ conns, e ∉ (kahnLoop c fuel frontier conns acc).2 →
        ∃ pre post, (kahnLoop c fuel frontier conns acc).1 = pre ++ e.source :: post ∧
          e.target ∉ pre ∧ e.target ≠ e.source) ∧
      (∀ m ∈ (kahnLoop c fuel frontier conns acc).1,
        m ∈ acc ∨ m ∈ frontier ∨ ∃ e ∈ conns, e.target = m) ∧
      ((kahnLoop c fuel frontier conns acc).2 = ∅ →
        ∀ e ∈ conns, e.source ∈ (kahnLoop c fuel frontier conns acc).1 ∧
          e.target ∈ (kahnLoop c fuel frontier conns acc).1) := by
  intro fuel
  induction fuel with
  | zero =>
    intro frontier conns acc hfuel Hfr Hacc Hdisj Hnodup
    have hc : conns = ∅ := Finset.card_eq_zero.mp (by omega)
    have hf : frontier = ∅ := Finset.card_eq_zero.mp (by omega)
    subst hc hf
    rw [kahnLoop_zero]
    refine ⟨⟨[], by simp⟩, Hnodup, ?_, Finset.Subset.refl _, ?_, ?_, ?_⟩
    · intro m hm
      cases hm
    · intro e he
      cases he
    · intro m hm
      exact Or.inl hm
    · intro _ e he
      cases he
  | succ fuel ih =>
    intro frontier conns acc hfuel Hfr Hacc Hdisj Hnodup
    by_cases hfr : frontier.Nonempty
    · -- one loop iteration
      have hn : pick c frontier hfr ∈ frontier := pick_mem c frontier hfr
      rw [kahnLoop_step c fuel frontier conns acc hfr]
      set n := pick c frontier hfr with hndef
      set out := outgoing n conns with houtdef
      set conns2 := conns \ out with hconns2def
      set newly := (out.image Connection.target).filter (fun m => isSource m conns2)
        with hnewlydef
      set fr2 := frontier.erase n ∪ newly with hfr2def
      set acc2 := acc ++ [n] with hacc2def
      have hout_sub : out ⊆ conns := Finset.filter_subset _ _
      have hconns2_sub : conns2 ⊆ conns := Finset.sdiff_subset
      have hsrc_n : isSource n conns := Hfr n hn
      -- source of every member of `out` is n; `out` members are in conns
      have hout_src : ∀ e ∈ out, e.source = n := by
        intro e he
        exact (Finset.mem_filter.mp he).2
      -- fuel bound for the recursive call
      have hfuel2 : fr2.card + conns2.card ≤ fuel := by
        have h1 : fr2.card ≤ (frontier.erase n).card + newly.card :=
          Finset.card_union_le _ _
        have h2 : (frontier.erase n).card = frontier.card - 1 :=
          Finset.card_erase_of_mem hn
        have h3 : newly.card ≤ (out.image Connection.target).card :=
          Finset.card_filter_le _ _
        have h4 : (out.image Connection.target).card ≤ out.card :=
          Finset.card_image_le
        have h5 : conns2.card = conns.card - out.card := Finset.card_sdiff hout_sub
        have h6 : out.card ≤ conns.card := Finset.card_le_card hout_sub
        have h7 : 0 < frontier.card := Finset.card_pos.mpr hfr
        omega
      -- frontier invariant
      have Hfr2 : ∀ m ∈ fr2, isSource m conns2 := by
        intro m hm
        rcases Finset.mem_union.mp hm with h | h
        · exact isSource_anti hconns2_sub (Hfr m (Finset.mem_of_mem_erase h))
        · exact (Finset.mem_filter.mp h).2
      -- emitted-node invariant
      have Hacc2 : ∀ m ∈ acc2, isSource m conns2 := by
        intro m hm
        rcases List.mem_append.mp hm with h | h
        · exact isSource_anti hconns2_sub (Hacc m h)
        · have : m = n := by simpa using h
          subst this
          exact isSource_anti hconns2_sub hsrc_n
      -- disjointness invariant
      have Hdisj2 : ∀ m ∈ fr2, m ∉ acc2 := by
        intro m hm hmem
        have hms : isSource m conns := by
          rcases List.mem_append.mp hmem with h | h
          · exact Hacc m h
          · have : m = n := by simpa using h
            subst this
            exact hsrc_n
        rcases Finset.mem_union.mp hm with h | h
        · have hmf : m ∈ frontier := Finset.mem_of_mem_erase h
          have hmne : m ≠ n := (Finset.mem_erase.mp h).1
          rcases List.mem_append.mp hmem with h2 | h2
          · exact Hdisj m hmf h2
          · exact hmne (by simpa using h2)
        · obtain ⟨e, he, hte⟩ := Finset.mem_image.mp (Finset.mem_filter.mp h).1
          exact hms e (hout_sub he) hte
      -- no duplicates
      have Hnodup2 : acc2.Nodup := by
        rw [hacc2def, List.nodup_append]
        refine ⟨Hnodup, List.nodup_singleton n, ?_⟩
        intro a ha hb
        have hb2 : a = n := by simpa using hb
        exact Hdisj n hn (hb2 ▸ ha)
      obtain ⟨⟨t, ht⟩, ihnodup, ihfr, ihsub, ihord, ihmem, ihcomp⟩ :=
        ih fr2 conns2 acc2 hfuel2 Hfr2 Hacc2 Hdisj2 Hnodup2
      refine ⟨⟨n :: t, by rw [ht, hacc2def]; simp⟩, ihnodup, ?_, ihsub.trans hconns2_sub,
        ?_, ?_, ?_⟩
      · -- every frontier node is emitted
        intro m hm
        by_cases hmn : m = n
        · subst hmn
          rw [ht, hacc2def]
          simp
        · exact ihfr m (Finset.mem_union_left _ (Finset.mem_erase.mpr ⟨hmn, hm⟩))
      · -- order of consumed connections
        intro e he hnot
        by_cases heout : e ∈ out
        · refine ⟨acc, t, ?_, ?_, ?_⟩
          · rw [ht, hout_src e heout, hacc2def]
            simp
          · intro hta
            exact Hacc e.target hta e he rfl
          · rw [hout_src e heout]
            intro h
            exact hsrc_n e he h
        · exact ihord e (Finset.mem_sdiff.mpr ⟨he, heout⟩) hnot
      · -- provenance of emitted nodes
        intro m hm
        rcases ihmem m hm with h | h | h
        · rcases List.mem_append.mp h with h2 | h2
          · exact Or.inl h2
          · have : m = n := by simpa using h2
            subst this
            exact Or.inr (Or.inl hn)
        · rcases Finset.mem_union.mp h with h2 | h2
          · exact Or.inr (Or.inl (Finset.mem_of_mem_erase h2))
          · obtain ⟨e, he, hte⟩ := Finset.mem_image.mp (Finset.mem_filter.mp h2).1
            exact Or.inr (Or.inr ⟨e, hout_sub he, hte⟩)
        · obtain ⟨e, he, hte⟩ := h
          exact Or.inr (Or.inr ⟨e, hconns2_sub he, hte⟩)
      · -- on success both endpoints are emitted
        intro hrest e he
        by_cases heout : e ∈ out
        · constructor
          · rw [ht, hout_src e heout, hacc2def]
            simp
          · by_cases htgt : isSource e.target conns2
            · have hnew : e.target ∈ newly :=
                Finset.mem_filter.mpr ⟨Finset.mem_image.mpr ⟨e, heout, rfl⟩, htgt⟩
              exact ihfr e.target (Finset.mem_union_right _ hnew)
            · unfold isSource at htgt
              push_neg at htgt
              obtain ⟨f, hf, hft⟩ := htgt
              have := (ihcomp hrest f hf).2
              rw [hft] at this
              exact this
        · exact ihcomp hrest e (Finset.mem_sdiff.mpr ⟨he, heout⟩)
    · -- frontier exhausted: the loop stops
      rw [kahnLoop_stop c fuel frontier conns acc hfr]
      have hfe : frontier = ∅ := Finset.not_nonempty_iff_eq_empty.mp hfr
      refine ⟨⟨[], by simp⟩, Hnodup, ?_, Finset.Subset.refl _, ?_, ?_, ?_⟩
      · intro m hm
        rw [hfe] at hm
        cases hm
      · intro e he hne
        exact absurd he hne
      · intro m hm
        exact Or.inl hm
      · intro hrest e he
        have hc : conns = ∅ := hrest
        rw [hc] at he
        cases he

/-- A nonempty connection set in which every edge's source has an
incoming edge contains a cycle (backward walks must repeat a node). -/
theorem hasCycle_of_closed (S : Finset Connection) (hne : S.Nonempty)
    (h : ∀ e ∈ S, ∃ f ∈ S, f.target = e.source) : HasCycle S := by
  classical
  set T : Finset Nat := S.image Connection.source with hT
  have hTne : ∃ x, x ∈ T := by
    obtain ⟨e0, he0⟩ := hne
    exact ⟨e0.source, Finset.mem_image.mpr ⟨e0, he0, rfl⟩⟩
  have H1 : ∀ a, a ∈ T → ∃ b, b ∈ T ∧ edgeRel S b a := by
    intro a ha
    obtain ⟨e, he, hes⟩ := Finset.mem_image.mp ha
    obtain ⟨f, hf, hft⟩ := h e he
    exact ⟨f.source, Finset.mem_image.mpr ⟨f, hf, rfl⟩, ⟨f, hf, rfl, hft.trans hes⟩⟩
  obtain ⟨F, hF⟩ : ∃ F : Nat → Nat, ∀ a ∈ T, F a ∈ T ∧ edgeRel S (F a) a := by
    choose Fd hFd using H1
    refine ⟨fun a => if ha : a ∈ T then Fd a ha else 0, ?_⟩
    intro a ha
    show (if h2 : a ∈ T then Fd a h2 else 0) ∈ T ∧
      edgeRel S (if h2 : a ∈ T then Fd a h2 else 0) a
    rw [dif_pos ha]
    exact hFd a ha
  obtain ⟨x0, hx0⟩ := hTne
  set g : Nat → Nat := fun k => F^[k] x0 with hg
  have hgT : ∀ k, g k ∈ T := by
    intro k
    induction k with
    | zero => simpa [hg] using hx0
    | succ k ihk =>
      show F^[k + 1] x0 ∈ T
      rw [Function.iterate_succ_apply']
      exact (hF _ ihk).1
  have hgR : ∀ k, edgeRel S (g (k + 1)) (g k) := by
    intro k
    have : g (k + 1) = F (g k) := Function.iterate_succ_apply' F k x0
    rw [this]
    exact (hF _ (hgT k)).2
  have hchain : ∀ d i, ∃ p : List Nat, List.Chain (edgeRel S) (g (i + d + 1)) (p ++ [g i]) := by
    intro d
    induction d with
    | zero =>
      intro i
      refine ⟨[], ?_⟩
      simpa using hgR i
    | succ d ihd =>
      intro i
      obtain ⟨p, hp⟩ := ihd i
      refine ⟨g (i + d + 1) :: p, ?_⟩
      rw [List.cons_append, List.chain_cons]
      exact ⟨hgR (i + d + 1), hp⟩
  have key : ∀ i j : Nat, i < j → g i = g j → HasCycle S := by
    intro i j hij hgij
    obtain ⟨p, hp⟩ := hchain (j - i - 1) i
    have harith : i + (j - i - 1) + 1 = j := by omega
    rw [harith] at hp
    rw [hgij] at hp
    exact ⟨g j, p, hp⟩
  obtain ⟨i, hi, j, hj, hij, hgij⟩ :=
    Finset.exists_ne_map_eq_of_card_lt_of_maps_to
      (show T.card < (Finset.range (T.card + 1)).card by
        rw [Finset.card_range]; omega)
      (fun k _ => hgT k)
  rcases Nat.lt_or_ge i j with hlt | hge
  · exact key i j hlt hgij
  · have hlt : j < i := by omega
    exact key j i hlt hgij.symm

/-- A cycle in a subset is a cycle in the superset. -/
theorem hasCycle_mono {S U : Finset Connection} (hsub : S ⊆ U) :
    HasCycle S → HasCycle U := by
  rintro ⟨x, p, hch⟩
  refine ⟨x, p, List.Chain.imp ?_ hch⟩
  intro a b hab
  obtain ⟨e, he, h1, h2⟩ := hab
  exact ⟨e, hsub he, h1, h2⟩

/-- Walking a chain strictly increases the position in any list on which
the edge relation is position-increasing. -/
theorem chain_indexOf_lt (conns : Finset Connection) (l : List Nat)
    (hord : ∀ a b, edgeRel conns a b → l.indexOf a < l.indexOf b) :
    ∀ (p : List Nat) (x y : Nat),
      List.Chain (edgeRel conns) x (p ++ [y]) → l.indexOf x < l.indexOf y := by
  intro p
  induction p with
  | nil =>
    intro x y h
    rw [List.nil_append, List.chain_cons] at h
    exact hord x y h.1
  | cons q qs ihp =>
    intro x y h
    rw [List.cons_append, List.chain_cons] at h
    exact (hord x q h.1).trans (ihp q y h.2)

/-- In a duplicate-free list `pre ++ a :: post`, the index of `a` is
strictly below the index of any `b` outside `pre ++ [a]`. -/
theorem indexOf_decomp_lt :
    ∀ (pre : List Nat) (a b : Nat) (post : List Nat),
      a ∉ pre → b ∉ pre → b ≠ a →
      (pre ++ a :: post).indexOf a < (pre ++ a :: post).indexOf b
  | [], a, b, post, _, _, hba => by
    rw [List.nil_append, List.indexOf_cons_self, List.indexOf_cons_ne _ hba.symm]
    omega
  | p :: pre, a, b, post, hapre, hbpre, hba => by
    have hap : a ≠ p := fun h => hapre (h ▸ List.mem_cons_self p pre)
    have hbp : b ≠ p := fun h => hbpre (h ▸ List.mem_cons_self p pre)
    rw [List.cons_append, List.indexOf_cons_ne _ hap.symm, List.indexOf_cons_ne _ hbp.symm]
    have := indexOf_decomp_lt pre a b post
      (fun h => hapre (List.mem_cons_of_mem p h))
      (fun h => hbpre (List.mem_cons_of_mem p h)) hba
    omega

/-- When the loop runs out of frontier, every residual connection's
source still has an incoming residual connection: a working connection
whose source is currently a source node always has that source on the
frontier (it entered either initially or when its last incoming
connection was removed), so a residual source with no residual incoming
connection would contradict the empty final frontier. -/
theorem kahnLoop_stuck (c : Finset Nat → Nat) :
    ∀ (fuel : Nat) (frontier : Finset Nat) (conns : Finset Connection) (acc : List Nat),
      frontier.card + conns.card ≤ fuel →
      (∀ e ∈ conns, isSource e.source conns → e.source ∈ frontier) →
      ∀ e ∈ (kahnLoop c fuel frontier conns acc).2,
        ∃ f ∈ (kahnLoop c fuel frontier conns acc).2, f.target = e.source := by
  intro fuel
  induction fuel with
  | zero =>
    intro frontier conns acc hfuel HJ e he
    have hc : conns = ∅ := Finset.card_eq_zero.mp (by omega)
    rw [kahnLoop_zero] at he
    have he2 : e ∈ conns := he
    rw [hc] at he2
    cases he2
  | succ fuel ih =>
    intro frontier conns acc hfuel HJ
    by_cases hfr : frontier.Nonempty
    · have hn : pick c frontier hfr ∈ frontier := pick_mem c frontier hfr
      rw [kahnLoop_step c fuel frontier conns acc hfr]
      set n := pick c frontier hfr with hndef
      set out := outgoing n conns with houtdef
      set conns2 := conns \ out with hconns2def
      set newly := (out.image Connection.target).filter (fun m => isSource m conns2)
        with hnewlydef
      set fr2 := frontier.erase n ∪ newly with hfr2def
      have hout_sub : out ⊆ conns := Finset.filter_subset _ _
      have hconns2_sub : conns2 ⊆ conns := Finset.sdiff_subset
      have hfuel2 : fr2.card + conns2.card ≤ fuel := by
        have h1 : fr2.card ≤ (frontier.erase n).card + newly.card :=
          Finset.card_union_le _ _
        have h2 : (frontier.erase n).card = frontier.card - 1 :=
          Finset.card_erase_of_mem hn
        have h3 : newly.card ≤ (out.image Connection.target).card :=
          Finset.card_filter_le _ _
        have h4 : (out.image Connection.target).card ≤ out.card :=
          Finset.card_image_le
        have h5 : conns2.card = conns.card - out.card := Finset.card_sdiff hout_sub
        have h6 : out.card ≤ conns.card := Finset.card_le_card hout_sub
        have h7 : 0 < frontier.card := Finset.card_pos.mpr hfr
        omega
      have HJ2 : ∀ e ∈ conns2, isSource e.source conns2 → e.source ∈ fr2 := by
        intro e he hsrc
        have heconns : e ∈ conns := hconns2_sub he
        have hesrc_ne : e.source ≠ n := by
          intro h
          exact (Finset.mem_sdiff.mp he).2 (Finset.mem_filter.mpr ⟨heconns, h⟩)
        by_cases hold : isSource e.source conns
        · exact Finset.mem_union_left _ (Finset.mem_erase.mpr ⟨hesrc_ne, HJ e heconns hold⟩)
        · unfold isSource at hold
          push_neg at hold
          obtain ⟨f, hf, hft⟩ := hold
          have hfnot2 : f ∉ conns2 := fun hf2 => hsrc f hf2 hft
          have hfout : f ∈ out := by
            by_contra hfo
            exact hfnot2 (Finset.mem_sdiff.mpr ⟨hf, hfo⟩)
          exact Finset.mem_union_right _
            (Finset.mem_filter.mpr ⟨Finset.mem_image.mpr ⟨f, hfout, hft⟩, hsrc⟩)
      exact ih fr2 conns2 (acc ++ [n]) hfuel2 HJ2
    · rw [kahnLoop_stop c fuel frontier conns acc hfr]
      intro e he
      by_contra hno
      push_neg at hno
      have hsrc : isSource e.source conns := by
        intro f hf hft
        exact hno f hf hft
      have hmem := HJ e he hsrc
      rw [Finset.not_nonempty_iff_eq_empty.mp hfr] at hmem
      cases hmem

/-- `sorted_nodes` unfolded to the final loop state. -/
theorem sortedNodes_eq (c : Finset Nat → Nat) (g : Graph) (subset : Option (Finset Nat)) :
    g.sortedNodes c subset =
      if (g.kahnResult c subset).2 = ∅ then .ok (g.kahnResult c subset).1
      else .error (.cycle (g.kahnResult c subset).2.card g.connections.card) := rfl

/-- `kahnLoop_spec` instantiated at the sorter's initial state. -/
theorem kahnResult_props (c : Finset Nat → Nat) (g : Graph) (subset : Option (Finset Nat)) :
    (g.kahnResult c subset).1.Nodup ∧
    (∀ m ∈ g.initialSources subset, m ∈ (g.kahnResult c subset).1) ∧
    (g.kahnResult c subset).2 ⊆ g.connections ∧
    (∀ e ∈ g.connections, e ∉ (g.kahnResult c subset).2 →
      ∃ pre post, (g.kahnResult c subset).1 = pre ++ e.source :: post ∧
        e.target ∉ pre ∧ e.target ≠ e.source) ∧
    (∀ m ∈ (g.kahnResult c subset).1,
      m ∈ g.initialSources subset ∨ ∃ e ∈ g.connections, e.target = m) ∧
    ((g.kahnResult c subset).2 = ∅ →
      ∀ e ∈ g.connections, e.source ∈ (g.kahnResult c subset).1 ∧
        e.target ∈ (g.kahnResult c subset).1) := by
  have h := kahnLoop_spec c ((g.initialSources subset).card + g.connections.card)
    (g.initialSources subset) g.connections [] (le_refl _)
    (fun m hm => (Finset.mem_filter.mp hm).2)
    (fun m hm => absurd hm (List.not_mem_nil m))
    (fun m _ hm => absurd hm (List.not_mem_nil m))
    List.nodup_nil
  obtain ⟨-, h2, h3, h4, h5, h6, h7⟩ := h
  refine ⟨h2, h3, h4, h5, ?_, h7⟩
  intro m hm
  rcases h6 m hm with h | h | h
  · exact absurd h (List.not_mem_nil m)
  · exact Or.inl h
  · exact Or.inr h

/-- On success every connection's source is emitted strictly before its
target. -/
theorem kahnResult_indexOf_lt (c : Finset Nat → Nat) (g : Graph)
    (subset : Option (Finset Nat)) (hdone : (g.kahnResult c subset).2 = ∅) :
    ∀ e ∈ g.connections,
      (g.kahnResult c subset).1.indexOf e.source <
        (g.kahnResult c subset).1.indexOf e.target := by
  obtain ⟨hnodup, -, -, hord, -, -⟩ := kahnResult_props c g subset
  intro e he
  obtain ⟨pre, post, hl, htpre, htne⟩ := hord e he (by rw [hdone]; exact Finset.not_mem_empty e)
  have hanp : e.source ∉ pre := by
    have hnd := hnodup
    rw [hl, List.nodup_append] at hnd
    intro hs
    exact hnd.2.2 hs (List.mem_cons_self _ _)
  have hlt := indexOf_decomp_lt pre e.source e.target post hanp htpre htne
  rw [hl]
  exact hlt

/-- C1: on a well-formed acyclic graph, `sorted_nodes()` succeeds and
returns a duplicate-free enumeration of all registered nodes in which
every connection's source precedes its target — for every pop behaviour
of the unordered frontier set. -/
theorem sortedNodes_acyclic_topo (c : Finset Nat → Nat) (g : Graph)
    (hwf : g.WellFormed) (hacyc : ¬HasCycle g.connections) :
    ∃ l : List Nat, g.sortedNodes c none = .ok l ∧ l.Nodup ∧
      l.toFinset = g.nodeValues ∧
      ∀ e ∈ g.connections, l.indexOf e.source < l.indexOf e.target := by
  have HJ : ∀ e ∈ g.connections, isSource e.source g.connections →
      e.source ∈ g.initialSources none := by
    intro e he hs
    refine Finset.mem_filter.mpr ⟨?_, hs⟩
    exact List.mem_toFinset.mpr (hwf.2.2 e he).1
  have hdone : (g.kahnResult c none).2 = ∅ := by
    by_contra hne
    have hne2 : (g.kahnResult c none).2.Nonempty := Finset.nonempty_iff_ne_empty.mpr hne
    have hclosed : ∀ e ∈ (g.kahnResult c none).2,
        ∃ f ∈ (g.kahnResult c none).2, f.target = e.source :=
      kahnLoop_stuck c ((g.initialSources none).card + g.connections.card)
        (g.initialSources none) g.connections [] (le_refl _) HJ
    have hcyc := hasCycle_of_closed _ hne2 hclosed
    obtain ⟨-, -, hsub, -, -, -⟩ := kahnResult_props c g none
    exact hacyc (hasCycle_mono hsub hcyc)
  obtain ⟨hnodup, hfr, hsub, hord, hmem, hcomp⟩ := kahnResult_props c g none
  refine ⟨(g.kahnResult c none).1, ?_, hnodup, ?_, kahnResult_indexOf_lt c g none hdone⟩
  · rw [sortedNodes_eq, if_pos hdone]
  · ext m
    simp only [List.mem_toFinset]
    constructor
    · intro hm
      rcases hmem m hm with h | h
      · exact Finset.filter_subset _ _ h
      · obtain ⟨e, he, hte⟩ := h
        have htv := (hwf.2.2 e he).2
        rw [hte] at htv
        exact List.mem_toFinset.mpr htv
    · intro hm
      by_cases hs : isSource m g.connections
      · exact hfr m (Finset.mem_filter.mpr ⟨hm, hs⟩)
      · unfold isSource at hs
        push_neg at hs
        obtain ⟨e, he, hte⟩ := hs
        have htl := (hcomp hdone e he).2
        rw [hte] at htl
        exact htl

/-- C3: on any graph whose connection set has a cycle, `sorted_nodes()`
raises the cycle exception carrying the residual-connection count (a
nonempty subset of the connection set) and the total count — for every
pop behaviour.  The embedding is a pure function of the graph: the
source works on `self.connections.copy()` and never writes the registry
or the connection set. -/
theorem sortedNodes_cycle_detected (c : Finset Nat → Nat) (g : Graph)
    (hcyc : HasCycle g.connections) :
    (g.kahnResult c none).2.Nonempty ∧
    (g.kahnResult c none).2 ⊆ g.connections ∧
    g.sortedNodes c none =
      .error (.cycle (g.kahnResult c none).2.card g.connections.card) := by
  obtain ⟨hnodup, hfr, hsub, hord, hmem, hcomp⟩ := kahnResult_props c g none
  have hne : (g.kahnResult c none).2 ≠ ∅ := by
    intro hdone
    have horder := kahnResult_indexOf_lt c g none hdone
    obtain ⟨x, p, hch⟩ := hcyc
    have hxx := chain_indexOf_lt g.connections (g.kahnResult c none).1
      (fun a b hab => by
        obtain ⟨e, he, h1, h2⟩ := hab
        have hlt := horder e he
        rw [h1, h2] at hlt
        exact hlt) p x x hch
    omega
  refine ⟨Finset.nonempty_iff_ne_empty.mpr hne, hsub, ?_⟩
  rw [sortedNodes_eq, if_neg hne]

/-- C1 witness: the two-node graph with the single connection A→B is
well formed and acyclic, and the sort (here with the pop choice that
always proposes node 0) yields a duplicate-free topological enumeration
of both nodes. -/
theorem sortedNodes_acyclic_topo_witness :
    gEdge.WellFormed ∧ ¬HasCycle gEdge.connections ∧
    (∃ l : List Nat, gEdge.sortedNodes (fun _ => 0) none = .ok l ∧ l.Nodup ∧
      l.toFinset = gEdge.nodeValues ∧
      ∀ e ∈ gEdge.connections, l.indexOf e.source < l.indexOf e.target) := by
  have hwf : gEdge.WellFormed := by decide
  have hstep : ∀ a b : Nat, edgeRel gEdge.connections a b → a = 0 ∧ b = 1 := by
    rintro a b ⟨e, he, h1, h2⟩
    have he2 : e = Connection.mk 0 1 none none := by
      have : e ∈ ({Connection.mk 0 1 none none} : Finset Connection) := he
      exact Finset.mem_singleton.mp this
    subst he2
    exact ⟨h1.symm, h2.symm⟩
  have hacyc : ¬HasCycle gEdge.connections := by
    rintro ⟨x, p, hch⟩
    cases p with
    | nil =>
      rw [List.nil_append, List.chain_cons] at hch
      obtain ⟨h0, h1⟩ := hstep x x hch.1
      omega
    | cons q qs =>
      rw [List.cons_append, List.chain_cons] at hch
      have hq : q = 1 := (hstep x q hch.1).2
      subst hq
      cases hqs : qs ++ [x] with
      | nil => exact absurd hqs (by simp)
      | cons y l2 =>
        rw [hqs, List.chain_cons] at hch
        have : (1 : Nat) = 0 := (hstep 1 y hch.2.1).1
        omega
  exact ⟨hwf, hacyc, sortedNodes_acyclic_topo (fun _ => 0) gEdge hwf hacyc⟩

/-- C3 witness: the cycle A→B→A is detected; the residue is both
connections, so the exception reports 2 residual connections of 2. -/
theorem sortedNodes_cycle_detected_witness :
    HasCycle gCycleAB.connections ∧
    (gCycleAB.kahnResult (fun _ => 0) none).2.card = 2 ∧
    gCycleAB.sortedNodes (fun _ => 0) none = .error (.cycle 2 2) := by
  have hcyc : HasCycle gCycleAB.connections := by
    refine ⟨0, [1], ?_⟩
    rw [List.cons_append, List.nil_append, List.chain_cons, List.chain_cons]
    exact ⟨⟨Connection.mk 0 1 none none, by decide, rfl, rfl⟩,
      ⟨Connection.mk 1 0 none none, by decide, rfl, rfl⟩, List.Chain.nil⟩
  have h := sortedNodes_cycle_detected (fun _ => 0) gCycleAB hcyc
  have hcard : (gCycleAB.kahnResult (fun _ => 0) none).2.card = 2 := by decide
  have htot : gCycleAB.connections.card = 2 := by decide
  refine ⟨hcyc, hcard, ?_⟩
  rw [h.2.2, hcard, htot]

/-- C2 counterexample: in the graph A→B with `subset = {A}`, the sort
succeeds and returns [A, B] — node B is *not* in the subset, so the
output is not "exactly the members of the subset". -/
theorem sortedNodes_subset_counterexample :
    gEdge.sortedNodes (fun _ => 0) (some {0}) = .ok [0, 1] ∧
    (1 : Nat) ∉ ({0} : Finset Nat) := by
  exact ⟨by decide, by decide⟩

/-- C2 (amended): on success, `sorted_nodes(subset)` returns a
duplicate-free sequence that contains every member of the subset (and
possibly further nodes reached through connections); every connection's
source precedes its target in it; and frontier-source status is judged
against the full connection set, so any connection target — in
particular a subset node fed from outside the subset — is never an
initial frontier source. -/
theorem sortedNodes_subset_spec (c : Finset Nat → Nat) (g : Graph) (subset : Finset Nat)
    (_hsub : subset ⊆ g.nodeValues) (l : List Nat)
    (hok : g.sortedNodes c (some subset) = .ok l) :
    l.Nodup ∧ (∀ m ∈ subset, m ∈ l) ∧
    (∀ e ∈ g.connections, l.indexOf e.source < l.indexOf e.target) ∧
    (∀ e ∈ g.connections, e.target ∉ g.initialSources (some subset)) := by
  rw [sortedNodes_eq] at hok
  by_cases hdone : (g.kahnResult c (some subset)).2 = ∅
  · rw [if_pos hdone] at hok
    have hleq : (g.kahnResult c (some subset)).1 = l := by
      injection hok
    subst hleq
    obtain ⟨hnodup, hfr, hsubR, hord, hmem, hcomp⟩ := kahnResult_props c g (some subset)
    refine ⟨hnodup, ?_, kahnResult_indexOf_lt c g (some subset) hdone, ?_⟩
    · intro m hm
      by_cases hempty : subset = ∅
      · rw [hempty] at hm
        cases hm
      · by_cases hs : isSource m g.connections
        · refine hfr m (Finset.mem_filter.mpr ⟨?_, hs⟩)
          show m ∈ g.sortTargets (some subset)
          simp only [Graph.sortTargets]
          rw [if_neg hempty]
          exact hm
        · unfold isSource at hs
          push_neg at hs
          obtain ⟨e, he, hte⟩ := hs
          have htl := (hcomp hdone e he).2
          rw [hte] at htl
          exact htl
    · intro e he hmem2
      exact (Finset.mem_filter.mp hmem2).2 e he rfl
  · rw [if_neg hdone] at hok
    exact Except.noConfusion hok

/-- C2 witness: subset {A} of the graph A→B; the successful sort [A, B]
contains the subset, respects the connection order, and B (a connection
target) is not an initial frontier source. -/
theorem sortedNodes_subset_spec_witness :
    (({0} : Finset Nat) ⊆ gEdge.nodeValues) ∧
    gEdge.sortedNodes (fun _ => 0) (some {0}) = .ok [0, 1] ∧
    (([0, 1] : List Nat).Nodup ∧ (∀ m ∈ ({0} : Finset Nat), m ∈ ([0, 1] : List Nat)) ∧
      (∀ e ∈ gEdge.connections,
        ([0, 1] : List Nat).indexOf e.source < ([0, 1] : List Nat).indexOf e.target) ∧
      (∀ e ∈ gEdge.connections, e.target ∉ gEdge.initialSources (some {0}))) :=
  ⟨by decide, by decide,
    sortedNodes_subset_spec (fun _ => 0) gEdge {0} (by decide) [0, 1] (by decide)⟩

/-- C6 counterexample: two admissible pop behaviours of the unordered
frontier set give different outputs on the diamond graph, so the result
is not a function of the graph state alone — the code pops an arbitrary
set element and never consults registry insertion order (the second
behaviour disagrees with the insertion-order result [A,B,C,D]). -/
theorem sortedNodes_diamond_counterexample :
    gDiamond.sortedNodes (fun _ => 1) none = .ok [0, 1, 2, 3] ∧
    gDiamond.sortedNodes (fun _ => 2) none = .ok [0, 2, 1, 3] ∧
    ([0, 1, 2, 3] : List Nat) ≠ [0, 2, 1, 3] :=
  ⟨by decide, by decide, by decide⟩

/-- C6 (amended): on the diamond A→B, A→C, B→D, C→D the sort succeeds
for every pop behaviour of the frontier set; the output is [A,B,C,D] or
[A,C,B,D] according to the one free pop choice, and in either case A is
first and D is last.  The order is determined only once the pop choice
is fixed; it is not obtained from registry insertion order. -/
theorem sortedNodes_diamond (c : Finset Nat → Nat) :
    ∃ l : List Nat, gDiamond.sortedNodes c none = .ok l ∧
      (l = [0, 1, 2, 3] ∨ l = [0, 2, 1, 3]) ∧
      l.head? = some 0 ∧ l.getLast? = some 3 := by
  have hstart : gDiamond.initialSources none = {0} := by decide
  have h0 : gDiamond.kahnResult c none =
      kahnLoop c 5 ({0} : Finset Nat) gDiamond.connections [] := by
    show kahnLoop c ((gDiamond.initialSources none).card + gDiamond.connections.card)
        (gDiamond.initialSources none) gDiamond.connections [] = _
    rw [hstart]
    have hc5 : ({0} : Finset Nat).card + gDiamond.connections.card = 5 := by decide
    rw [hc5]
  have h1ne : ({0} : Finset Nat).Nonempty := ⟨0, by decide⟩
  have s1 : kahnLoop c 5 ({0} : Finset Nat) gDiamond.connections [] =
      kahnLoop c 4 ({1, 2} : Finset Nat)
        ({Connection.mk 1 3 none none, Connection.mk 2 3 none none} : Finset Connection)
        [0] := by
    have h := kahnLoop_step c 4 ({0} : Finset Nat) gDiamond.connections [] h1ne
    rw [pick_singleton c 0] at h
    have hA : ({0} : Finset Nat).erase 0 ∪
        ((outgoing 0 gDiamond.connections).image Connection.target).filter
          (fun m => isSource m (gDiamond.connections \ outgoing 0 gDiamond.connections)) =
        ({1, 2} : Finset Nat) := by decide
    have hB : gDiamond.connections \ outgoing 0 gDiamond.connections =
        ({Connection.mk 1 3 none none, Connection.mk 2 3 none none} : Finset Connection) := by
      decide
    rw [hA, hB] at h
    exact h
  have h2ne : ({1, 2} : Finset Nat).Nonempty := ⟨1, by decide⟩
  have hk := pick_mem c ({1, 2} : Finset Nat) h2ne
  have hstop : ∀ l : List Nat, kahnLoop c 1 (∅ : Finset Nat) (∅ : Finset Connection) l =
      (l, (∅ : Finset Connection)) := by
    intro l
    exact kahnLoop_stop c 0 ∅ ∅ l (by simp)
  rcases Finset.mem_insert.mp hk with hk1 | hk2
  · -- the pop chooses B
    have s2 : kahnLoop c 4 ({1, 2} : Finset Nat)
        ({Connection.mk 1 3 none none, Connection.mk 2 3 none none} : Finset Connection) [0] =
        kahnLoop c 3 ({2} : Finset Nat)
          ({Connection.mk 2 3 none none} : Finset Connection) [0, 1] := by
      have h := kahnLoop_step c 3 ({1, 2} : Finset Nat)
        ({Connection.mk 1 3 none none, Connection.mk 2 3 none none} : Finset Connection)
        [0] h2ne
      rw [hk1] at h
      have hA : ({1, 2} : Finset Nat).erase 1 ∪
          ((outgoing 1 ({Connection.mk 1 3 none none, Connection.mk 2 3 none none} :
              Finset Connection)).image Connection.target).filter
            (fun m => isSource m
              (({Connection.mk 1 3 none none, Connection.mk 2 3 none none} :
                  Finset Connection) \
                outgoing 1 ({Connection.mk 1 3 none none, Connection.mk 2 3 none none} :
                  Finset Connection))) = ({2} : Finset Nat) := by decide
      have hB : (({Connection.mk 1 3 none none, Connection.mk 2 3 none none} :
            Finset Connection) \
          outgoing 1 ({Connection.mk 1 3 none none, Connection.mk 2 3 none none} :
            Finset Connection)) =
          ({Connection.mk 2 3 none none} : Finset Connection) := by decide
      rw [hA, hB] at h
      exact h
    have s3 : kahnLoop c 3 ({2} : Finset Nat)
        ({Connection.mk 2 3 none none} : Finset Connection) [0, 1] =
        kahnLoop c 2 ({3} : Finset Nat) (∅ : Finset Connection) [0, 1, 2] := by
      have h := kahnLoop_step c 2 ({2} : Finset Nat)
        ({Connection.mk 2 3 none none} : Finset Connection) [0, 1] ⟨2, by decide⟩
      rw [pick_singleton c 2] at h
      have hA : ({2} : Finset Nat).erase 2 ∪
          ((outgoing 2 ({Connection.mk 2 3 none none} : Finset Connection)).image
            Connection.target).filter
            (fun m => isSource m (({Connection.mk 2 3 none none} : Finset Connection) \
              outgoing 2 ({Connection.mk 2 3 none none} : Finset Connection))) =
          ({3} : Finset Nat) := by decide
      have hB : (({Connection.mk 2 3 none none} : Finset Connection) \
          outgoing 2 ({Connection.mk 2 3 none none} : Finset Connection)) =
          (∅ : Finset Connection) := by decide
      rw [hA, hB] at h
      exact h
    have s4 : kahnLoop c 2 ({3} : Finset Nat) (∅ : Finset Connection) [0, 1, 2] =
        kahnLoop c 1 (∅ : Finset Nat) (∅ : Finset Connection) [0, 1, 2, 3] := by
      have h := kahnLoop_step c 1 ({3} : Finset Nat) (∅ : Finset Connection)
        [0, 1, 2] ⟨3, by decide⟩
      rw [pick_singleton c 3] at h
      have hA : ({3} : Finset Nat).erase 3 ∪
          ((outgoing 3 (∅ : Finset Connection)).image Connection.target).filter
            (fun m => isSource m ((∅ : Finset Connection) \
              outgoing 3 (∅ : Finset Connection))) = (∅ : Finset Nat) := by decide
      have hB : ((∅ : Finset Connection) \ outgoing 3 (∅ : Finset Connection)) =
          (∅ : Finset Connection) := by decide
      rw [hA, hB] at h
      exact h
    have hres : gDiamond.kahnResult c none = ([0, 1, 2, 3], (∅ : Finset Connection)) := by
      rw [h0, s1, s2, s3, s4, hstop]
    refine ⟨[0, 1, 2, 3], ?_, Or.inl rfl, rfl, rfl⟩
    rw [sortedNodes_eq, hres]
    rfl
  · -- the pop chooses C
    have hk2' : pick c ({1, 2} : Finset Nat) h2ne = 2 := Finset.mem_singleton.mp hk2
    have s2 : kahnLoop c 4 ({1, 2} : Finset Nat)
        ({Connection.mk 1 3 none none, Connection.mk 2 3 none none} : Finset Connection) [0] =
        kahnLoop c 3 ({1} : Finset Nat)
          ({Connection.mk 1 3 none none} : Finset Connection) [0, 2] := by
      have h := kahnLoop_step c 3 ({1, 2} : Finset Nat)
        ({Connection.mk 1 3 none none, Connection.mk 2 3 none none} : Finset Connection)
        [0] h2ne
      rw [hk2'] at h
      have hA : ({1, 2} : Finset Nat).erase 2 ∪
          ((outgoing 2 ({Connection.mk 1 3 none none, Connection.mk 2 3 none none} :
              Finset Connection)).image Connection.target).filter
            (fun m => isSource m
              (({Connection.mk 1 3 none none, Connection.mk 2 3 none none} :
                  Finset Connection) \
                outgoing 2 ({Connection.mk 1 3 none none, Connection.mk 2 3 none none} :
                  Finset Connection))) = ({1} : Finset Nat) := by decide
      have hB : (({Connection.mk 1 3 none none, Connection.mk 2 3 none none} :
            Finset Connection) \
          outgoing 2 ({Connection.mk 1 3 none none, Connection.mk 2 3 none none} :
            Finset Connection)) =
          ({Connection.mk 1 3 none none} : Finset Connection) := by decide
      rw [hA, hB] at h
      exact h
    have s3 : kahnLoop c 3 ({1} : Finset Nat)
        ({Connection.mk 1 3 none none} : Finset Connection) [0, 2] =
        kahnLoop c 2 ({3} : Finset Nat) (∅ : Finset Connection) [0, 2, 1] := by
      have h := kahnLoop_step c 2 ({1} : Finset Nat)
        ({Connection.mk 1 3 none none} : Finset Connection) [0, 2] ⟨1, by decide⟩
      rw [pick_singleton c 1] at h
      have hA : ({1} : Finset Nat).erase 1 ∪
          ((outgoing 1 ({Connection.mk 1 3 none none} : Finset Connection)).image
            Connection.target).filter
            (fun m => isSource m (({Connection.mk 1 3 none none} : Finset Connection) \
              outgoing 1 ({Connection.mk 1 3 none none} : Finset Connection))) =
          ({3} : Finset Nat) := by decide
      have hB : (({Connection.mk 1 3 none none} : Finset Connection) \
          outgoing 1 ({Connection.mk 1 3 none none} : Finset Connection)) =
          (∅ : Finset Connection) := by decide
      rw [hA, hB] at h
      exact h
    have s4 : kahnLoop c 2 ({3} : Finset Nat) (∅ : Finset Connection) [0, 2, 1] =
        kahnLoop c 1 (∅ : Finset Nat) (∅ : Finset Connection) [0, 2, 1, 3] := by
      have h := kahnLoop_step c 1 ({3} : Finset Nat) (∅ : Finset Connection)
        [0, 2, 1] ⟨3, by decide⟩
      rw [pick_singleton c 3] at h
      have hA : ({3} : Finset Nat).erase 3 ∪
          ((outgoing 3 (∅ : Finset Connection)).image Connection.target).filter
            (fun m => isSource m ((∅ : Finset Connection) \
              outgoing 3 (∅ : Finset Connection))) = (∅ : Finset Nat) := by decide
      have hB : ((∅ : Finset Connection) \ outgoing 3 (∅ : Finset Connection)) =
          (∅ : Finset Connection) := by decide
      rw [hA, hB] at h
      exact h
    have hres : gDiamond.kahnResult c none = ([0, 2, 1, 3], (∅ : Finset Connection)) := by
      rw [h0, s1, s2, s3, s4, hstop]
    refine ⟨[0, 2, 1, 3], ?_, Or.inr rfl, rfl, rfl⟩
    rw [sortedNodes_eq, hres]
    rfl
